import Mathlib

/-!
Verification of the ATtiny85 white-light controller core
(`src/main.cpp`): the brightness scaler `setBrightness`, the fader
`fadePWM`, and the command interpreter `processNECCommand`.

The C code works on `uint8_t`/`uint16_t`/`int16_t`.  We embed it over
`Nat` (resp. `Int` for the `int16_t` fader arithmetic), inserting
`% 65536` exactly where a 16-bit unsigned operation can exceed the
type's range.  Division is C unsigned division (= `Nat` division) or,
in the fader, C `int16_t` division truncating toward zero (= `Int.div`).
-/

namespace WhiteLight

/-- `struct PWMdata { uint8_t coldWhite; uint8_t warmWhite; }`. -/
structure PWMdata where
  coldWhite : Nat
  warmWhite : Nat
deriving DecidableEq, Repr

/-- Arduino's `constrain(amt, low, high)` macro:
`amt < low ? low : (amt > high ? high : amt)`. -/
def constrain (x lo hi : Nat) : Nat :=
  if x < lo then lo else if hi < x then hi else x

/-- `constrain` for the fader's `int16_t` intermediate values. -/
def constrain16 (x lo hi : Int) : Int :=
  if x < lo then lo else if hi < x then hi else x

/-- `setBrightness(uint8_t brightness, struct PWMdata white)`
(src/main.cpp, scaler).  All intermediate arithmetic is `uint16_t`,
hence the `% 65536`; `scaleFactor = 100`.  The branch condition is the
source's `white.coldWhite >= white.warmWhite` (ties take the cold
branch).  C unsigned division by zero is undefined behaviour; the
embedding totalises it as `Nat` division (`x / 0 = 0`), and claim C2
examines exactly the divisors. -/
def setBrightness (brightness : Nat) (white : PWMdata) : PWMdata :=
  let scaleFactor : Nat := 100
  if white.warmWhite ≤ white.coldWhite then
    let temp := ((white.coldWhite * scaleFactor) % 65536 +
        ((white.warmWhite * 9) % 65536) / 10) % 65536 / white.warmWhite
    let newWarmWhitePWM := ((brightness * scaleFactor) % 65536 +
        ((temp * 9) % 65536) / 10) % 65536 / temp
    { coldWhite := constrain brightness 1 255,
      warmWhite := constrain newWarmWhitePWM 1 255 }
  else
    let temp := ((white.warmWhite * scaleFactor) % 65536 +
        ((white.coldWhite * 9) % 65536) / 10) % 65536 / white.coldWhite
    let newColdWhitePWM := ((brightness * scaleFactor) % 65536 +
        ((temp * 9) % 65536) / 10) % 65536 / temp
    { coldWhite := constrain newColdWhitePWM 1 255,
      warmWhite := constrain brightness 1 255 }

/-- The dominant-over-recessive ratio `temp` computed by the scaler,
for dominant value `c` and recessive value `w` (the `uint16_t temp`
local of `setBrightness`). -/
def tempOf (c w : Nat) : Nat :=
  ((c * 100) % 65536 + ((w * 9) % 65536) / 10) % 65536 / w

/-- The recessive-channel value computed by the scaler from the target
brightness `b` and the ratio `t` (the second division of
`setBrightness`). -/
def fval (b t : Nat) : Nat :=
  ((b * 100) % 65536 + ((t * 9) % 65536) / 10) % 65536 / t

/-- The two divisors `setBrightness` divides by: the recessive channel
value and `temp`. -/
def scaleDivisors (white : PWMdata) : Nat × Nat :=
  if white.warmWhite ≤ white.coldWhite then
    (white.warmWhite, tempOf white.coldWhite white.warmWhite)
  else
    (white.coldWhite, tempOf white.warmWhite white.coldWhite)

/-- The sequence of `PWMdata` values `fadePWM(start, stop, durationMs)`
passes to the output sink `setPWM`: the loop body runs for
`i = 0, 1, ..., steps` (`steps = 50`), emitting the clamped
`(currentCold, currentWarm)` pair, and after the loop the exact `stop`
value is emitted once more.  `stepCold`/`stepWarm` are `int16_t`
divisions truncating toward zero (`Int.div`); `durationMs` only feeds
the blocking delay `mdelay(durationMs / steps)` between emissions, so
it does not influence the emitted values. -/
def fadePWMOutputs (start stop : PWMdata) (durationMs : Int) : List PWMdata :=
  let steps : Int := 50
  let stepCold := Int.tdiv ((stop.coldWhite : Int) - (start.coldWhite : Int)) steps
  let stepWarm := Int.tdiv ((stop.warmWhite : Int) - (start.warmWhite : Int)) steps
  ((List.range 51).map fun i =>
    { coldWhite := (constrain16 ((start.coldWhite : Int) + (i : Int) * stepCold) 1 255).toNat
      warmWhite := (constrain16 ((start.warmWhite : Int) + (i : Int) * stepWarm) 1 255).toNat })
  ++ [stop]

/-- `const uint8_t presets[5][2]`. -/
def presets (i : Nat) : PWMdata :=
  match i with
  | 0 => ⟨255, 1⟩
  | 1 => ⟨255, 128⟩
  | 2 => ⟨255, 255⟩
  | 3 => ⟨128, 255⟩
  | _ => ⟨1, 255⟩

def EEPROM_COLD_WHITE_ADDR : Nat := 0
def EEPROM_WARM_WHITE_ADDR : Nat := 1

/-- `getBrightness(struct PWMdata color)`.  The source compares
`color.coldWhite` against the *global* `whiteColor.warmWhite`, so the
global is an explicit second argument here. -/
def getBrightness (color : PWMdata) (whiteColor : PWMdata) : Nat :=
  if whiteColor.warmWhite < color.coldWhite then color.coldWhite
  else color.warmWhite

/-- The process-wide mutable state of the controller. -/
structure ControllerState where
  whiteColor : PWMdata
  brightness : Nat
  current_preset : Nat
  is_on : Bool
  is_night : Bool
deriving DecidableEq, Repr

/-- Observable effect of processing one command: the successor state,
the `PWMdata` values passed to `setPWM` (in order), and the
`(address, value)` pairs written to EEPROM (in order). -/
structure CommandResult where
  state : ControllerState
  emitted : List PWMdata
  eepromWrites : List (Nat × Nat)
deriving DecidableEq, Repr

/-- `processNECCommand(uint16_t command)`.  `eeprom` is the current
persistent color (what `readColor()` returns).  `increment = 4`.
Saturating `uint8_t` updates keep the source's exact guard shapes
(`brightness < (255-increment)` etc.); the wrap-around of `uint8_t`
addition is written as `% 256` even though every guarded addition
stays below 256.  In the night-mode restore branch the source first
assigns `whiteColor = readColor()` and only then calls
`getBrightness(whiteColor)`, so `getBrightness` sees the freshly
loaded color in both of its argument roles. -/
def processNECCommand (command : Nat) (eeprom : PWMdata)
    (s : ControllerState) : CommandResult :=
  let increment : Nat := 4
  if command = 69 then -- On-Off toggle
    let is_on' := !s.is_on
    if is_on' then
      { state := { s with is_on := is_on' },
        emitted := fadePWMOutputs ⟨0, 0⟩ s.whiteColor 500,
        eepromWrites := [] }
    else
      { state := { s with is_on := is_on' },
        emitted := fadePWMOutputs s.whiteColor ⟨0, 0⟩ 500,
        eepromWrites := [] }
  else if command = 71 then -- Select presettings 0..4
    let current_preset' := (s.current_preset + 1) % 5
    let newColor := setBrightness s.brightness (presets current_preset')
    { state := { s with current_preset := current_preset',
                        whiteColor := newColor },
      emitted := fadePWMOutputs s.whiteColor newColor 500,
      eepromWrites := [] }
  else if command = 9 then -- brighter
    let brightness' :=
      if s.brightness < 255 - increment then (s.brightness + increment) % 256
      else 255
    let whiteColor' := setBrightness brightness' s.whiteColor
    { state := { s with brightness := brightness', whiteColor := whiteColor' },
      emitted := [whiteColor'],
      eepromWrites := [] }
  else if command = 7 then -- darker
    let brightness' :=
      if increment ≤ s.brightness then s.brightness - increment else 0
    let whiteColor' := setBrightness brightness' s.whiteColor
    { state := { s with brightness := brightness', whiteColor := whiteColor' },
      emitted := [whiteColor'],
      eepromWrites := [] }
  else if command = 25 then -- colder white
    let cold1 :=
      if s.whiteColor.coldWhite < 255 - increment then
        (s.whiteColor.coldWhite + increment) % 256
      else 255
    let warm1 :=
      if increment ≤ s.whiteColor.warmWhite then
        s.whiteColor.warmWhite - increment
      else 0
    let cold2 := if cold1 = 0 then 1 else cold1
    let warm2 := if warm1 = 0 then 1 else warm1
    let brightness' := if warm2 < cold2 then cold2 else warm2
    { state := { s with whiteColor := ⟨cold2, warm2⟩,
                        brightness := brightness' },
      emitted := [⟨cold2, warm2⟩],
      eepromWrites := [] }
  else if command = 64 then -- warmer white
    let warm1 :=
      if s.whiteColor.warmWhite < 255 - increment then
        (s.whiteColor.warmWhite + increment) % 256
      else 255
    let cold1 :=
      if increment ≤ s.whiteColor.coldWhite then
        s.whiteColor.coldWhite - increment
      else 0
    let cold2 := if cold1 = 0 then 1 else cold1
    let warm2 := if warm1 = 0 then 1 else warm1
    let brightness' := if warm2 < cold2 then cold2 else warm2
    { state := { s with whiteColor := ⟨cold2, warm2⟩,
                        brightness := brightness' },
      emitted := [⟨cold2, warm2⟩],
      eepromWrites := [] }
  else if command = 8 then -- Nightlight
    let is_night' := !s.is_night
    if is_night' then
      { state := { s with is_night := is_night' },
        emitted := fadePWMOutputs s.whiteColor
          (setBrightness 5 (presets 4)) 500,
        eepromWrites := [] }
    else
      let whiteColor' := eeprom
      let brightness' := getBrightness whiteColor' whiteColor'
      { state := { s with is_night := is_night', whiteColor := whiteColor',
                          brightness := brightness' },
        emitted := fadePWMOutputs (setBrightness 5 (presets 4)) whiteColor' 500,
        eepromWrites := [] }
  else if command = 12 then -- 10%
    let newColor := setBrightness 25 s.whiteColor
    { state := { s with whiteColor := newColor },
      emitted := fadePWMOutputs s.whiteColor newColor 500,
      eepromWrites := [] }
  else if command = 24 then -- 50%
    let newColor := setBrightness 128 s.whiteColor
    { state := { s with whiteColor := newColor },
      emitted := fadePWMOutputs s.whiteColor newColor 500,
      eepromWrites := [] }
  else if command = 94 then -- 100%
    let newColor := setBrightness 255 s.whiteColor
    { state := { s with whiteColor := newColor },
      emitted := fadePWMOutputs s.whiteColor newColor 500,
      eepromWrites := [] }
  else if command = 28 then -- D1: store current color temperature
    { state := s,
      emitted := [⟨0, 0⟩, s.whiteColor],
      eepromWrites := [(EEPROM_COLD_WHITE_ADDR, s.whiteColor.coldWhite),
                       (EEPROM_WARM_WHITE_ADDR, s.whiteColor.warmWhite)] }
  else
    { state := s, emitted := [], eepromWrites := [] }

end WhiteLight


namespace WhiteLight

/-! ### Basic facts about `constrain` and the scaler's arithmetic -/

theorem constrain_bounds (x : Nat) :
    1 ≤ constrain x 1 255 ∧ constrain x 1 255 ≤ 255 := by
  unfold constrain
  split_ifs <;> omega

theorem constrain_mono {x y : Nat} (h : x ≤ y) :
    constrain x 1 255 ≤ constrain y 1 255 := by
  unfold constrain
  split_ifs <;> omega

theorem constrain_eq_max {x : Nat} (h : x ≤ 255) :
    constrain x 1 255 = max x 1 := by
  unfold constrain
  split_ifs <;> omega

/-- With `uint8` inputs, none of the 16-bit operations feeding `temp`
can wrap, so the `% 65536` in `tempOf` all vanish. -/
theorem tempOf_unwrap {c w : Nat} (hc : c ≤ 255) (hw : w ≤ 255) :
    tempOf c w = (c * 100 + w * 9 / 10) / w := by
  have e1 : c * 100 % 65536 = c * 100 := Nat.mod_eq_of_lt (by omega)
  have e2 : w * 9 % 65536 = w * 9 := Nat.mod_eq_of_lt (by omega)
  have h9 : w * 9 / 10 ≤ 2295 / 10 := Nat.div_le_div_right (by omega)
  have e3 : (c * 100 + w * 9 / 10) % 65536 = c * 100 + w * 9 / 10 :=
    Nat.mod_eq_of_lt (by omega)
  unfold tempOf
  rw [e1, e2, e3]

theorem tempOf_ge_100 {c w : Nat} (hw : 1 ≤ w) (hwc : w ≤ c) (hc : c ≤ 255) :
    100 ≤ tempOf c w := by
  have hw255 : w ≤ 255 := by omega
  rw [tempOf_unwrap hc hw255, Nat.le_div_iff_mul_le (by omega)]
  omega

theorem tempOf_le {c w : Nat} (hw : 1 ≤ w) (hc : c ≤ 255) :
    tempOf c w ≤ 25729 := by
  by_cases hw255 : w ≤ 255
  · rw [tempOf_unwrap hc hw255]
    have h9 : w * 9 / 10 ≤ 2295 / 10 := Nat.div_le_div_right (by omega)
    calc (c * 100 + w * 9 / 10) / w
        ≤ c * 100 + w * 9 / 10 := Nat.div_le_self _ _
      _ ≤ 25729 := by omega
  · -- channels are uint8, so this case cannot occur for real inputs;
    -- the bound still holds since the dividend is below 65536
    unfold tempOf
    have h1 : (c * 100 % 65536 + w * 9 % 65536 / 10) % 65536 ≤ 65535 :=
      Nat.le_of_lt_succ (Nat.mod_lt _ (by omega))
    calc (c * 100 % 65536 + w * 9 % 65536 / 10) % 65536 / w
        ≤ 65535 / w := Nat.div_le_div_right h1
      _ ≤ 65535 / 256 := Nat.div_le_div_left (by omega) (by omega)
      _ ≤ 25729 := by norm_num

/-- The scaler's recessive-channel value never exceeds the target
brightness, because `temp ≥ 100 = scaleFactor`. -/
theorem fval_le {b t : Nat} (hb : b ≤ 255) (ht : 100 ≤ t) : fval b t ≤ b := by
  have ht0 : 0 < t := by omega
  have e1 : b * 100 % 65536 = b * 100 := Nat.mod_eq_of_lt (by omega)
  have hm1 : t * 9 % 65536 ≤ 65535 := Nat.le_of_lt_succ (Nat.mod_lt _ (by omega))
  have hm2 : t * 9 % 65536 / 10 ≤ 65535 / 10 := Nat.div_le_div_right hm1
  have e2 : (b * 100 + t * 9 % 65536 / 10) % 65536 = b * 100 + t * 9 % 65536 / 10 :=
    Nat.mod_eq_of_lt (by omega)
  unfold fval
  rw [e1, e2]
  have hq : (b * 100 + t * 9 % 65536 / 10) / t < b + 1 := by
    rw [Nat.div_lt_iff_lt_mul ht0]
    have h1 : b * 100 ≤ b * t := Nat.mul_le_mul_left b ht
    have h2 : t * 9 % 65536 / 10 ≤ t * 9 / 10 :=
      Nat.div_le_div_right (Nat.mod_le _ _)
    have h3 : t * 9 / 10 < t := by
      rw [Nat.div_lt_iff_lt_mul (by omega)]
      omega
    have h4 : (b + 1) * t = b * t + t := by ring
    omega
  omega

end WhiteLight

namespace WhiteLight

/-- On the cold-dominant branch (`coldWhite >= warmWhite`, which also
covers ties) the scaler returns the clamped target on the cold channel
and the clamped ratio-scaled value on the warm channel. -/
theorem setBrightness_cold_eq {x : PWMdata} (b : Nat)
    (h : x.warmWhite ≤ x.coldWhite) :
    setBrightness b x =
      ⟨constrain b 1 255,
       constrain (fval b (tempOf x.coldWhite x.warmWhite)) 1 255⟩ := by
  simp only [setBrightness, tempOf, fval, if_pos h]

/-- On the warm-dominant branch the scaler computes exactly the
mirror image of the cold-dominant branch on the swapped pair. -/
theorem setBrightness_swap {x : PWMdata} (b : Nat)
    (h : x.coldWhite < x.warmWhite) :
    setBrightness b x =
      ⟨(setBrightness b ⟨x.warmWhite, x.coldWhite⟩).warmWhite,
       (setBrightness b ⟨x.warmWhite, x.coldWhite⟩).coldWhite⟩ := by
  have h' : ¬ (x.warmWhite ≤ x.coldWhite) := by omega
  simp only [setBrightness, if_pos (show x.coldWhite ≤ x.warmWhite by omega),
    if_neg h']

/-- C2 counterexample: `{coldWhite := 5, warmWhite := 0}` satisfies the
claimed precondition "at least one channel > 0", yet the first division
of `setBrightness` (`/ white.warmWhite` on the cold-dominant branch)
divides by zero. -/
theorem scale_divisor_zero_counterexample :
    (0 < (⟨5, 0⟩ : PWMdata).coldWhite ∨ 0 < (⟨5, 0⟩ : PWMdata).warmWhite) ∧
    (scaleDivisors ⟨5, 0⟩).1 = 0 := by decide

/-- C2 (amended): the divisions of `setBrightness` are free of division
by zero whenever *both* channels of `current` are positive (the
divisors are the recessive channel and `temp ≥ 100`). -/
theorem scale_divisors_pos (white : PWMdata)
    (hc : 0 < white.coldWhite) (hw : 0 < white.warmWhite)
    (hc255 : white.coldWhite ≤ 255) (hw255 : white.warmWhite ≤ 255) :
    0 < (scaleDivisors white).1 ∧ 0 < (scaleDivisors white).2 := by
  unfold scaleDivisors
  split_ifs with h
  · exact ⟨hw, by have := tempOf_ge_100 hw h hc255; omega⟩
  · exact ⟨hc, by have := tempOf_ge_100 hc (by omega) hw255; omega⟩

/-- C2 amended-claim witness at `current = {200, 100}`. -/
theorem scale_divisors_pos_witness :
    0 < (scaleDivisors ⟨200, 100⟩).1 ∧ 0 < (scaleDivisors ⟨200, 100⟩).2 :=
  scale_divisors_pos ⟨200, 100⟩ (by decide) (by decide) (by decide) (by decide)

/-- C1: for `targetBrightness ≤ 255` and both input channels in
`[1, 255]`, the scaler's output channels are in `[1, 255]`; the
dominant input channel (ties favoring cold-white) receives exactly the
clamped target brightness `constrain targetBrightness 1 255`, i.e. the
raw target was set before clamping; and that channel is still dominant
or tied in the output. -/
theorem scale_range_and_dominance (b : Nat) (x : PWMdata) (hb : b ≤ 255)
    (hc1 : 1 ≤ x.coldWhite) (hc2 : x.coldWhite ≤ 255)
    (hw1 : 1 ≤ x.warmWhite) (hw2 : x.warmWhite ≤ 255) :
    (1 ≤ (setBrightness b x).coldWhite ∧ (setBrightness b x).coldWhite ≤ 255 ∧
     1 ≤ (setBrightness b x).warmWhite ∧ (setBrightness b x).warmWhite ≤ 255) ∧
    (x.warmWhite ≤ x.coldWhite →
      (setBrightness b x).coldWhite = constrain b 1 255 ∧
      (setBrightness b x).warmWhite ≤ (setBrightness b x).coldWhite) ∧
    (x.coldWhite < x.warmWhite →
      (setBrightness b x).warmWhite = constrain b 1 255 ∧
      (setBrightness b x).coldWhite ≤ (setBrightness b x).warmWhite) := by
  by_cases h : x.warmWhite ≤ x.coldWhite
  · rw [setBrightness_cold_eq b h]
    have ht := tempOf_ge_100 hw1 h hc2
    have hv := fval_le hb ht
    refine ⟨⟨(constrain_bounds b).1, (constrain_bounds b).2,
      (constrain_bounds _).1, (constrain_bounds _).2⟩,
      fun _ => ⟨rfl, constrain_mono hv⟩, fun hlt => absurd hlt (by omega)⟩
  · have hlt : x.coldWhite < x.warmWhite := by omega
    rw [setBrightness_swap b hlt,
      setBrightness_cold_eq b (show (⟨x.warmWhite, x.coldWhite⟩ : PWMdata).warmWhite ≤
        (⟨x.warmWhite, x.coldWhite⟩ : PWMdata).coldWhite by simpa using by omega)]
    have ht := tempOf_ge_100 hc1 (show x.coldWhite ≤ x.warmWhite by omega) hw2
    have hv := fval_le hb ht
    exact ⟨⟨(constrain_bounds _).1, (constrain_bounds _).2,
      (constrain_bounds b).1, (constrain_bounds b).2⟩,
      fun hge => absurd hge (by omega),
      fun _ => ⟨rfl, constrain_mono hv⟩⟩

/-- C1 witness at `targetBrightness = 128`, input `{200, 100}`. -/
theorem scale_range_and_dominance_witness :
    (1 ≤ (setBrightness 128 ⟨200, 100⟩).coldWhite ∧
     (setBrightness 128 ⟨200, 100⟩).coldWhite ≤ 255 ∧
     1 ≤ (setBrightness 128 ⟨200, 100⟩).warmWhite ∧
     (setBrightness 128 ⟨200, 100⟩).warmWhite ≤ 255) ∧
    ((⟨200, 100⟩ : PWMdata).warmWhite ≤ (⟨200, 100⟩ : PWMdata).coldWhite →
      (setBrightness 128 ⟨200, 100⟩).coldWhite = constrain 128 1 255 ∧
      (setBrightness 128 ⟨200, 100⟩).warmWhite ≤
        (setBrightness 128 ⟨200, 100⟩).coldWhite) ∧
    ((⟨200, 100⟩ : PWMdata).coldWhite < (⟨200, 100⟩ : PWMdata).warmWhite →
      (setBrightness 128 ⟨200, 100⟩).warmWhite = constrain 128 1 255 ∧
      (setBrightness 128 ⟨200, 100⟩).coldWhite ≤
        (setBrightness 128 ⟨200, 100⟩).warmWhite) :=
  scale_range_and_dominance 128 ⟨200, 100⟩ (by decide) (by decide) (by decide)
    (by decide) (by decide)

end WhiteLight

namespace WhiteLight

theorem constrain16_mono {x y : Int} (h : x ≤ y) :
    constrain16 x 1 255 ≤ constrain16 y 1 255 := by
  unfold constrain16
  split_ifs <;> omega

theorem constrain16_toNat_bounds (x : Int) :
    1 ≤ (constrain16 x 1 255).toNat ∧ (constrain16 x 1 255).toNat ≤ 255 := by
  unfold constrain16
  split_ifs <;> omega

/-- C3: `fadePWM` passes exactly 52 values to the output sink: the 51
loop iterations (`stepCount + 1` with `stepCount = 50`), each with both
channels clamped to `[1, 255]`, followed unconditionally by the exact
`stop` value, so the last delivered value is `stop` regardless of the
rounding of the per-step deltas — for every `start`, `stop` and
duration. -/
theorem fade_emits_51_clamped_then_stop (start stop : PWMdata) (durationMs : Int) :
    (fadePWMOutputs start stop durationMs).length = 52 ∧
    (∀ p ∈ (fadePWMOutputs start stop durationMs).take 51,
      1 ≤ p.coldWhite ∧ p.coldWhite ≤ 255 ∧
      1 ≤ p.warmWhite ∧ p.warmWhite ≤ 255) ∧
    (fadePWMOutputs start stop durationMs).getLast? = some stop := by
  refine ⟨by simp [fadePWMOutputs], ?_, by
    simp only [fadePWMOutputs]
    exact List.getLast?_concat _⟩
  intro p hp
  simp only [fadePWMOutputs] at hp
  rw [List.take_left' (by simp)] at hp
  obtain ⟨i, -, rfl⟩ := List.mem_map.mp hp
  exact ⟨(constrain16_toNat_bounds _).1, (constrain16_toNat_bounds _).2,
    (constrain16_toNat_bounds _).1, (constrain16_toNat_bounds _).2⟩

/-- C4: when `A.coldWhite < B.coldWhite`, the cold-channel values of
the full emitted fade sequence (51 clamped intermediate values, then
the final exact `B`) never decrease; integer truncation of the step
delta can only produce plateaus. -/
theorem fade_cold_monotone (A B : PWMdata) (durationMs : Int)
    (h : A.coldWhite < B.coldWhite) :
    List.Chain' (fun p q => p.coldWhite ≤ q.coldWhite)
      (fadePWMOutputs A B durationMs) := by
  simp only [fadePWMOutputs]
  have hd0 : (0 : Int) ≤ (B.coldWhite : Int) - (A.coldWhite : Int) := by omega
  have hsd : Int.tdiv ((B.coldWhite : Int) - (A.coldWhite : Int)) 50 =
      ((B.coldWhite : Int) - (A.coldWhite : Int)) / 50 :=
    Int.tdiv_eq_ediv hd0 (by norm_num)
  rw [List.chain'_append]
  refine ⟨?_, List.chain'_singleton _, ?_⟩
  · rw [List.chain'_map, show (51 : Nat) = Nat.succ 50 from rfl,
      List.chain'_range_succ]
    intro i _
    show ((constrain16 _ 1 255).toNat : Nat) ≤ (constrain16 _ 1 255).toNat
    apply Int.toNat_le_toNat
    apply constrain16_mono
    rw [hsd]
    have e : ((Nat.succ i : Nat) : Int) * (((B.coldWhite : Int) - (A.coldWhite : Int)) / 50) =
        (i : Int) * (((B.coldWhite : Int) - (A.coldWhite : Int)) / 50) +
          ((B.coldWhite : Int) - (A.coldWhite : Int)) / 50 := by
      push_cast
      ring
    rw [e]
    have hs : (0 : Int) ≤ ((B.coldWhite : Int) - (A.coldWhite : Int)) / 50 :=
      Int.ediv_nonneg hd0 (by norm_num)
    omega
  · intro x hx y hy
    rw [List.head?_cons, Option.mem_some_iff] at hy
    rw [show (51 : Nat) = 50 + 1 from rfl, List.range_succ, List.map_append,
      List.map_cons, List.map_nil, List.getLast?_concat, Option.mem_some_iff] at hx
    subst hx
    subst hy
    show ((constrain16 _ 1 255).toNat : Nat) ≤ B.coldWhite
    rw [hsd]
    have h50 : 50 * (((B.coldWhite : Int) - (A.coldWhite : Int)) / 50) ≤
        (B.coldWhite : Int) - (A.coldWhite : Int) := by omega
    unfold constrain16
    split_ifs <;> push_cast <;> omega

/-- C4 witness: a concrete rising fade from `{1,1}` to `{255,1}`. -/
theorem fade_cold_monotone_witness :
    List.Chain' (fun p q => p.coldWhite ≤ q.coldWhite)
      (fadePWMOutputs ⟨1, 1⟩ ⟨255, 1⟩ 500) :=
  fade_cold_monotone ⟨1, 1⟩ ⟨255, 1⟩ 500 (by decide)

end WhiteLight

namespace WhiteLight

/-- C6: processing the toggle-night command (code 8) while in night
mode assigns the freshly loaded persistent color to `whiteColor` and
derives `brightness` from that loaded color: because the source
assigns the global `whiteColor` *before* calling
`getBrightness(whiteColor)`, the comparison inside `getBrightness`
reads the loaded color's own warm channel, and the result is exactly
`max eeprom.coldWhite eeprom.warmWhite`. -/
theorem toggleNight_leave_restores (s : ControllerState) (eeprom : PWMdata)
    (h : s.is_night = true) :
    (processNECCommand 8 eeprom s).state.whiteColor = eeprom ∧
    (processNECCommand 8 eeprom s).state.brightness =
      max eeprom.coldWhite eeprom.warmWhite := by
  simp only [processNECCommand, getBrightness, h]
  norm_num
  split_ifs <;> omega

/-- C6 witness: leaving night mode with persisted color `{200, 150}`. -/
theorem toggleNight_leave_restores_witness :
    (processNECCommand 8 ⟨200, 150⟩ ⟨⟨10, 20⟩, 30, 0, true, true⟩).state.whiteColor
        = ⟨200, 150⟩ ∧
    (processNECCommand 8 ⟨200, 150⟩ ⟨⟨10, 20⟩, 30, 0, true, true⟩).state.brightness
        = max 200 150 :=
  toggleNight_leave_restores ⟨⟨10, 20⟩, 30, 0, true, true⟩ ⟨200, 150⟩ rfl

/-- C7: the brighter command (code 9) saturates `brightness` at
`min (b + 4) 255` and the darker command (code 7) at `max (b - 4) 0`
(stated over `Int` so the lower saturation is visible). -/
theorem brightness_step_saturates (s : ControllerState) (eeprom : PWMdata)
    (h : s.brightness ≤ 255) :
    (processNECCommand 9 eeprom s).state.brightness =
      min (s.brightness + 4) 255 ∧
    ((processNECCommand 7 eeprom s).state.brightness : Int) =
      max ((s.brightness : Int) - 4) 0 := by
  constructor
  · simp only [processNECCommand]
    norm_num
    split_ifs <;> omega
  · simp only [processNECCommand]
    norm_num
    split_ifs <;> push_cast <;> omega

/-- C7 witness: brightening at `brightness = 252` yields 255, not a
wrap past 255 (and darkening at 2 yields 0). -/
theorem brightness_step_saturates_witness :
    (processNECCommand 9 ⟨0, 0⟩ ⟨⟨128, 128⟩, 252, 0, true, false⟩).state.brightness
        = min (252 + 4) 255 ∧
    ((processNECCommand 7 ⟨0, 0⟩ ⟨⟨128, 128⟩, 252, 0, true, false⟩).state.brightness : Int)
        = max ((252 : Int) - 4) 0 :=
  brightness_step_saturates ⟨⟨128, 128⟩, 252, 0, true, false⟩ ⟨0, 0⟩ (by decide)

/-- C8: the shift-colder command (code 25) sets the cold channel to
`min (cold + 4) 255` and the warm channel to `warm - 4` (saturating at
0), each re-clamped to a minimum of 1, then recomputes `brightness` as
the maximum of the two new channels. -/
theorem shiftColder_saturates (s : ControllerState) (eeprom : PWMdata)
    (hc : s.whiteColor.coldWhite ≤ 255) (hw : s.whiteColor.warmWhite ≤ 255) :
    (processNECCommand 25 eeprom s).state.whiteColor.coldWhite =
      max (min (s.whiteColor.coldWhite + 4) 255) 1 ∧
    (processNECCommand 25 eeprom s).state.whiteColor.warmWhite =
      max (s.whiteColor.warmWhite - 4) 1 ∧
    (processNECCommand 25 eeprom s).state.brightness =
      max (processNECCommand 25 eeprom s).state.whiteColor.coldWhite
        (processNECCommand 25 eeprom s).state.whiteColor.warmWhite := by
  simp only [processNECCommand]
  norm_num
  split_ifs <;> simp_all <;> omega

/-- C8 witness: the claim's scenario `{cold 253, warm 2}` ends at
`{cold 255, warm 1}` with brightness 255. -/
theorem shiftColder_saturates_witness :
    (processNECCommand 25 ⟨0, 0⟩ ⟨⟨253, 2⟩, 128, 0, true, false⟩).state.whiteColor.coldWhite
        = max (min (253 + 4) 255) 1 ∧
    (processNECCommand 25 ⟨0, 0⟩ ⟨⟨253, 2⟩, 128, 0, true, false⟩).state.whiteColor.warmWhite
        = max (2 - 4) 1 ∧
    (processNECCommand 25 ⟨0, 0⟩ ⟨⟨253, 2⟩, 128, 0, true, false⟩).state.brightness
        = max (processNECCommand 25 ⟨0, 0⟩ ⟨⟨253, 2⟩, 128, 0, true, false⟩).state.whiteColor.coldWhite
            (processNECCommand 25 ⟨0, 0⟩ ⟨⟨253, 2⟩, 128, 0, true, false⟩).state.whiteColor.warmWhite :=
  shiftColder_saturates ⟨⟨253, 2⟩, 128, 0, true, false⟩ ⟨0, 0⟩ (by decide) (by decide)

/-- C9: any command code outside the recognized set
`{69, 71, 9, 7, 25, 64, 8, 12, 24, 94, 28}` is a silent no-op: the
state is returned unchanged and nothing is emitted to the output sink
or written to EEPROM. -/
theorem unrecognized_command_noop (c : Nat) (eeprom : PWMdata)
    (s : ControllerState)
    (h : c ∉ ([69, 71, 9, 7, 25, 64, 8, 12, 24, 94, 28] : List Nat)) :
    processNECCommand c eeprom s = ⟨s, [], []⟩ := by
  simp only [List.mem_cons, List.not_mem_nil, or_false] at h
  push_neg at h
  obtain ⟨h69, h71, h9, h7, h25, h64, h8, h12, h24, h94, h28⟩ := h
  simp only [processNECCommand, if_neg h69, if_neg h71, if_neg h9, if_neg h7,
    if_neg h25, if_neg h64, if_neg h8, if_neg h12, if_neg h24, if_neg h94,
    if_neg h28]

/-- C9 witness: command code 0 leaves everything untouched. -/
theorem unrecognized_command_noop_witness :
    processNECCommand 0 ⟨7, 9⟩ ⟨⟨128, 128⟩, 128, 0, true, false⟩ =
      ⟨⟨⟨128, 128⟩, 128, 0, true, false⟩, [], []⟩ :=
  unrecognized_command_noop 0 ⟨7, 9⟩ ⟨⟨128, 128⟩, 128, 0, true, false⟩ (by decide)

end WhiteLight

namespace WhiteLight

/-- C10: the fixed-level commands (codes 12, 24, 94) replace
`whiteColor` by the rescaled color but do not touch `brightness`,
`current_preset`, `is_on` or `is_night`; consequently a brighter
command processed right after starts from the stale pre-command
brightness (`min (b + 4) 255` computed from the old `b`, not from
25/128/255). -/
theorem fixedLevel_keeps_brightness (s : ControllerState) (eeprom : PWMdata)
    (h : s.brightness ≤ 255) :
    ((processNECCommand 12 eeprom s).state =
        { s with whiteColor := setBrightness 25 s.whiteColor } ∧
     (processNECCommand 24 eeprom s).state =
        { s with whiteColor := setBrightness 128 s.whiteColor } ∧
     (processNECCommand 94 eeprom s).state =
        { s with whiteColor := setBrightness 255 s.whiteColor }) ∧
    ((processNECCommand 9 eeprom (processNECCommand 12 eeprom s).state).state.brightness
        = min (s.brightness + 4) 255 ∧
     (processNECCommand 9 eeprom (processNECCommand 24 eeprom s).state).state.brightness
        = min (s.brightness + 4) 255 ∧
     (processNECCommand 9 eeprom (processNECCommand 94 eeprom s).state).state.brightness
        = min (s.brightness + 4) 255) := by
  have h12 : (processNECCommand 12 eeprom s).state =
      { s with whiteColor := setBrightness 25 s.whiteColor } := by
    simp only [processNECCommand]
    norm_num
  have h24 : (processNECCommand 24 eeprom s).state =
      { s with whiteColor := setBrightness 128 s.whiteColor } := by
    simp only [processNECCommand]
    norm_num
  have h94 : (processNECCommand 94 eeprom s).state =
      { s with whiteColor := setBrightness 255 s.whiteColor } := by
    simp only [processNECCommand]
    norm_num
  have hb : ∀ u : PWMdata,
      (processNECCommand 9 eeprom { s with whiteColor := u }).state.brightness
        = min (s.brightness + 4) 255 := by
    intro u
    simp only [processNECCommand]
    norm_num
    split_ifs <;> omega
  exact ⟨⟨h12, h24, h94⟩, by rw [h12]; exact hb _, by rw [h24]; exact hb _,
    by rw [h94]; exact hb _⟩

/-- C10 witness: at brightness 128, a fixed-level command followed by
brighter yields 132, not 29/132/259. -/
theorem fixedLevel_keeps_brightness_witness :
    ((processNECCommand 12 ⟨0, 0⟩ ⟨⟨200, 100⟩, 128, 2, true, false⟩).state =
        { whiteColor := setBrightness 25 ⟨200, 100⟩, brightness := 128,
          current_preset := 2, is_on := true, is_night := false } ∧
     (processNECCommand 24 ⟨0, 0⟩ ⟨⟨200, 100⟩, 128, 2, true, false⟩).state =
        { whiteColor := setBrightness 128 ⟨200, 100⟩, brightness := 128,
          current_preset := 2, is_on := true, is_night := false } ∧
     (processNECCommand 94 ⟨0, 0⟩ ⟨⟨200, 100⟩, 128, 2, true, false⟩).state =
        { whiteColor := setBrightness 255 ⟨200, 100⟩, brightness := 128,
          current_preset := 2, is_on := true, is_night := false }) ∧
    ((processNECCommand 9 ⟨0, 0⟩
        (processNECCommand 12 ⟨0, 0⟩ ⟨⟨200, 100⟩, 128, 2, true, false⟩).state).state.brightness
        = min (128 + 4) 255 ∧
     (processNECCommand 9 ⟨0, 0⟩
        (processNECCommand 24 ⟨0, 0⟩ ⟨⟨200, 100⟩, 128, 2, true, false⟩).state).state.brightness
        = min (128 + 4) 255 ∧
     (processNECCommand 9 ⟨0, 0⟩
        (processNECCommand 94 ⟨0, 0⟩ ⟨⟨200, 100⟩, 128, 2, true, false⟩).state).state.brightness
        = min (128 + 4) 255) :=
  fixedLevel_keeps_brightness ⟨⟨200, 100⟩, 128, 2, true, false⟩ ⟨0, 0⟩ (by decide)

end WhiteLight

namespace WhiteLight

/-- Componentwise distance at most 1 between two duty-cycle pairs. -/
def within1 (p q : PWMdata) : Prop :=
  p.coldWhite ≤ q.coldWhite + 1 ∧ q.coldWhite ≤ p.coldWhite + 1 ∧
  p.warmWhite ≤ q.warmWhite + 1 ∧ q.warmWhite ≤ p.warmWhite + 1

instance (p q : PWMdata) : Decidable (within1 p q) := by
  unfold within1
  infer_instance

theorem within1_refl (p : PWMdata) : within1 p p := by
  simp [within1]

theorem within1_swap {p q : PWMdata} (h : within1 p q) :
    within1 ⟨p.warmWhite, p.coldWhite⟩ ⟨q.warmWhite, q.coldWhite⟩ := by
  obtain ⟨h1, h2, h3, h4⟩ := h
  exact ⟨h3, h4, h1, h2⟩

/-- Closed-form candidate for the largest ratio value `t` at which the
scaler's second division still yields `v`: the condition in the `if`
is `(10v - 9) * that + (9 * that) % 10 ≤ 1000 * b` written without
subtraction. -/
def certTemp (b v : Nat) : Nat :=
  let that := 1000 * b / (10 * v - 9)
  if 10 * (v * that) + that * 9 % 10 ≤ 1000 * b + 9 * that then that
  else that - 1

/-- Single test case for the fixed-point check: if `(b, v)` lies in
the hard regime (`v * v` exceeds `b * 100` plus rounding, which forces
`101 ≤ v ≤ b`) and the certificate for `(b, v)` holds, then the pair
`⟨b, v⟩` must be an exact fixed point of rescaling to `b`.  (The
complementary easy regime is settled algebraically by
`stage2_fix_easy`.) -/
def certCheck (b v : Nat) : Bool :=
  if 5 ≤ v ∧ v ≤ b ∧ b * 100 + v * 9 / 10 < v * v ∧
      100 ≤ certTemp b v ∧ fval b (certTemp b v) = v then
    decide (setBrightness b ⟨b, v⟩ = ⟨b, v⟩)
  else true

/-- The fixed-point check at the pair encoded by `n`, ranging over the
square `[101, 255] × [101, 255]` that contains the hard regime. -/
def certPair (n : Nat) : Bool :=
  certCheck (101 + n / 155) (101 + n % 155)

/-- Fuel-bounded binary-split conjunction of `f` over
`[lo, lo + len)`; written this way (rather than with a bounded-forall
decidability instance) so that the kernel can evaluate it by plain
structural recursion. -/
def checkRange (f : Nat → Bool) : Nat → Nat → Nat → Bool
  | 0, lo, len => decide (len = 0) || (decide (len = 1) && f lo)
  | fuel + 1, lo, len =>
    if len = 0 then true
    else if len = 1 then f lo
    else checkRange f fuel lo (len / 2) &&
      checkRange f fuel (lo + len / 2) (len - len / 2)

theorem checkRange_sound (f : Nat → Bool) :
    ∀ fuel lo len, checkRange f fuel lo len = true →
      ∀ i, lo ≤ i → i < lo + len → f i = true := by
  intro fuel
  induction fuel with
  | zero =>
    intro lo len h i hi1 hi2
    simp only [checkRange, Bool.or_eq_true, Bool.and_eq_true,
      decide_eq_true_eq] at h
    rcases h with h0 | ⟨h1, hf⟩
    · omega
    · have : i = lo := by omega
      rw [this]
      exact hf
  | succ n ih =>
    intro lo len h i hi1 hi2
    simp only [checkRange] at h
    by_cases hl0 : len = 0
    · omega
    rw [if_neg hl0] at h
    by_cases hl1 : len = 1
    · rw [if_pos hl1] at h
      have : i = lo := by omega
      rw [this]
      exact h
    rw [if_neg hl1, Bool.and_eq_true] at h
    rcases Nat.lt_or_ge i (lo + len / 2) with hsplit | hsplit
    · exact ih lo (len / 2) h.1 i hi1 hsplit
    · exact ih (lo + len / 2) (len - len / 2) h.2 i hsplit (by omega)

set_option maxRecDepth 100000 in
set_option maxHeartbeats 4000000 in
/-- Whenever `(b, v)` lies in the hard regime and the closed-form
certificate for it holds, the pair `⟨b, v⟩` is an exact fixed point of
rescaling to `b` (checked by evaluating `checkRange` over the
`[101, 255]` square). -/
theorem scaler_cert_fix :
    ∀ b < 256, ∀ v < 256,
      (5 ≤ v ∧ v ≤ b ∧ b * 100 + v * 9 / 10 < v * v ∧
        100 ≤ certTemp b v ∧ fval b (certTemp b v) = v) →
      setBrightness b ⟨b, v⟩ = ⟨b, v⟩ := by
  have hchk : checkRange certPair 18 0 24025 = true := by decide!
  intro b hb v hv hcert
  obtain ⟨h5, hvb, hquad, hct, hfv⟩ := hcert
  have hv101 : 101 ≤ v := by
    by_contra hc
    have hv100 : v ≤ 100 := by omega
    have : v * v ≤ 100 * v := Nat.mul_le_mul_right v hv100
    omega
  have hb101 : 101 ≤ b := by omega
  have hp := checkRange_sound certPair 18 0 24025 hchk
    ((b - 101) * 155 + (v - 101)) (by omega) (by omega)
  have e1 : 101 + ((b - 101) * 155 + (v - 101)) / 155 = b := by omega
  have e2 : 101 + ((b - 101) * 155 + (v - 101)) % 155 = v := by omega
  rw [certPair, e1, e2, certCheck,
    if_pos ⟨h5, hvb, hquad, hct, hfv⟩] at hp
  exact of_decide_eq_true hp

set_option maxRecDepth 100000 in
set_option maxHeartbeats 4000000 in
/-- For small recessive values (`u ≤ 4`, where the 16-bit wrap of
`9 * temp` can matter) rescaling a pair `⟨max b 1, u⟩` moves each
channel by at most 1, for every `b`. -/
theorem scaler_small_recessive :
    ∀ b < 256, ∀ u < 5,
      (1 ≤ u ∧ u ≤ max b 1) →
      within1 (setBrightness b ⟨max b 1, u⟩) ⟨max b 1, u⟩ := by decide!

/-- In the region where `9 * t` cannot wrap a `uint16`, the second
division of the scaler is plain integer arithmetic. -/
theorem fval_unwrap {b t : Nat} (hb : b ≤ 255) (h1 : 1 ≤ t) (h2 : t ≤ 7281) :
    fval b t = (b * 100 + t * 9 / 10) / t := by
  have e1 : b * 100 % 65536 = b * 100 := Nat.mod_eq_of_lt (by omega)
  have e2 : t * 9 % 65536 = t * 9 := Nat.mod_eq_of_lt (by omega)
  have h9 : t * 9 / 10 ≤ 65529 / 10 := Nat.div_le_div_right (by omega)
  have e3 : (b * 100 + t * 9 / 10) % 65536 = b * 100 + t * 9 / 10 :=
    Nat.mod_eq_of_lt (by omega)
  unfold fval
  rw [e1, e2, e3]

/-- The scaler's second division is antitone in the ratio argument on
the wrap-free region. -/
theorem fval_anti {b t t' : Nat} (hb : b ≤ 255) (h1 : 1 ≤ t) (hle : t ≤ t')
    (h2 : t' ≤ 7281) : fval b t' ≤ fval b t := by
  obtain ⟨d, rfl⟩ : ∃ d, t' = t + d := ⟨t' - t, by omega⟩
  rw [fval_unwrap hb h1 (by omega), fval_unwrap hb (by omega) h2]
  set v' := (b * 100 + (t + d) * 9 / 10) / (t + d) with hv'
  rcases Nat.eq_zero_or_pos v' with hz | hvpos
  · rw [hz]
    exact Nat.zero_le _
  have hmul : v' * (t + d) ≤ b * 100 + (t + d) * 9 / 10 := by
    rw [hv']
    exact Nat.div_mul_le_self _ _
  rw [Nat.le_div_iff_mul_le (show 0 < t by omega)]
  have hq : (t + d) * 9 / 10 ≤ t * 9 / 10 + d := by omega
  have hsplit : v' * (t + d) = v' * t + v' * d := by ring
  have hgrow : d ≤ v' * d := Nat.le_mul_of_pos_left d hvpos
  omega

/-- Any ratio `t ≥ 100` that stage one of the scaler can use to
produce a recessive value `v ≥ 5` certifies the closed-form ratio
`certTemp b v`: that candidate also reproduces exactly `v`. -/
theorem cert_of_stage1 {b t v : Nat} (hb : b ≤ 255) (ht100 : 100 ≤ t)
    (hv : fval b t = v) (hv5 : 5 ≤ v) :
    v ≤ b ∧ 100 ≤ certTemp b v ∧ fval b (certTemp b v) = v := by
  have hvb : v ≤ b := hv ▸ fval_le hb ht100
  -- characterize the first-stage division (before knowing `t` is small)
  have e1 : b * 100 % 65536 = b * 100 := Nat.mod_eq_of_lt (by omega)
  have hm1 : t * 9 % 65536 ≤ 65535 := Nat.le_of_lt_succ (Nat.mod_lt _ (by omega))
  have hm2 : t * 9 % 65536 / 10 ≤ 65535 / 10 := Nat.div_le_div_right hm1
  have e2 : (b * 100 + t * 9 % 65536 / 10) % 65536 = b * 100 + t * 9 % 65536 / 10 :=
    Nat.mod_eq_of_lt (by omega)
  have hveq : v = (b * 100 + t * 9 % 65536 / 10) / t := by
    rw [← hv]
    unfold fval
    rw [e1, e2]
  have hmul : v * t ≤ b * 100 + t * 9 % 65536 / 10 := by
    rw [hveq]
    exact Nat.div_mul_le_self _ _
  -- `v ≥ 5` forces `t` into the wrap-free region
  have ht5 : 5 * t ≤ v * t := Nat.mul_le_mul_right t hv5
  have ht6410 : t ≤ 6410 := by omega
  have e3 : t * 9 % 65536 = t * 9 := Nat.mod_eq_of_lt (by omega)
  rw [e3] at hmul
  have hdm := Nat.div_add_mod (t * 9) 10
  -- condition C(t), written without subtraction:
  -- 10*v*t + (9t mod 10) ≤ 1000b + 9t
  have hC : 10 * (v * t) + t * 9 % 10 ≤ 1000 * b + 9 * t := by omega
  set that := 1000 * b / (10 * v - 9) with hthat
  -- `t ≤ that`
  have hexp_t : t * (10 * v - 9) + 9 * t = 10 * (v * t) := by
    have e : t * (10 * v) = 10 * (v * t) := by ring
    rw [Nat.mul_sub, e]
    omega
  have hle_that : t ≤ that := by
    rw [hthat, Nat.le_div_iff_mul_le (show 0 < 10 * v - 9 by omega)]
    omega
  have hthat_mul : that * (10 * v - 9) ≤ 1000 * b := by
    rw [hthat]
    exact Nat.div_mul_le_self _ _
  have hexp_that : that * (10 * v - 9) + 9 * that = 10 * (v * that) := by
    have e : that * (10 * v) = 10 * (v * that) := by ring
    rw [Nat.mul_sub, e]
    have h9that : 9 * that ≤ that * (10 * v) := by
      have : 9 * that ≤ 50 * that := by omega
      have e2 : that * (10 * v) = 10 * v * that := by ring
      rw [e2]
      have : 50 * that ≤ 10 * v * that := Nat.mul_le_mul_right that (by omega)
      omega
    omega
  -- bounds for the chosen candidate
  have hCT : t ≤ certTemp b v ∧
      10 * (v * certTemp b v) + certTemp b v * 9 % 10 ≤
        1000 * b + 9 * certTemp b v := by
    simp only [certTemp]
    rw [← hthat]
    split_ifs with hcond
    · exact ⟨hle_that, hcond⟩
    · have h1that : 1 ≤ that := by omega
      have hsucc : v * (that - 1) + v = v * that := by
        have e : v * (that - 1 + 1) = v * (that - 1) + v := Nat.mul_succ v (that - 1)
        have e2 : that - 1 + 1 = that := by omega
        rw [e2] at e
        omega
      constructor
      · -- `t` cannot equal `that` since C(t) holds but C(that) fails
        rcases Nat.lt_or_ge t that with hlt | hge
        · omega
        · have ht_that : t = that := by omega
          rw [ht_that] at hC
          omega
      · -- C(that - 1) holds because `that * (10v - 9) ≤ 1000b`
        have hm10 : (that - 1) * 9 % 10 ≤ 9 := by omega
        omega
  obtain ⟨hle_ct, hC_ct⟩ := hCT
  have hct100 : 100 ≤ certTemp b v := by omega
  -- the candidate is itself wrap-free
  have hct_le : certTemp b v ≤ 6219 := by
    have h1 : certTemp b v ≤ that := by
      simp only [certTemp]
      rw [← hthat]
      split_ifs <;> omega
    have h2 : that ≤ 1000 * b / 41 := by
      rw [hthat]
      exact Nat.div_le_div_left (by omega) (by omega)
    have h3 : 1000 * b / 41 ≤ 255000 / 41 := Nat.div_le_div_right (by omega)
    omega
  -- lower bound: C(certTemp) gives `fval ≥ v`
  have hge : v ≤ fval b (certTemp b v) := by
    rw [fval_unwrap hb (by omega) (by omega),
      Nat.le_div_iff_mul_le (show 0 < certTemp b v by omega)]
    have hdm2 := Nat.div_add_mod (certTemp b v * 9) 10
    omega
  -- upper bound: antitonicity from `t`
  have hle' : fval b (certTemp b v) ≤ fval b t :=
    fval_anti hb (by omega) hle_ct (by omega)
  rw [hv] at hle'
  exact ⟨hvb, hct100, by omega⟩

/-- Easy regime of the fixed-point argument: when
`v * v ≤ b * 100 + v * 9 / 10`, the stage-two ratio
`q = tempOf b v` satisfies `q ≥ v`, and monotonicity of
`⌊9 t / 10⌋` and of `t - ⌊9 t / 10⌋` in `t` makes `⟨b, v⟩` an exact
fixed point of rescaling to `b` — no certificate needed. -/
theorem stage2_fix_easy {b v : Nat} (hb : b ≤ 255) (hv5 : 5 ≤ v)
    (hvb : v ≤ b) (heasy : v * v ≤ b * 100 + v * 9 / 10) :
    setBrightness b ⟨b, v⟩ = ⟨b, v⟩ := by
  have hv255 : v ≤ 255 := by omega
  rw [setBrightness_cold_eq b (show (⟨b, v⟩ : PWMdata).warmWhite ≤
    (⟨b, v⟩ : PWMdata).coldWhite from hvb)]
  show (⟨constrain b 1 255, constrain (fval b (tempOf b v)) 1 255⟩ : PWMdata)
      = ⟨b, v⟩
  have htmp : tempOf b v = (b * 100 + v * 9 / 10) / v := tempOf_unwrap hb hv255
  rw [htmp]
  set E := b * 100 + v * 9 / 10 with hE
  set q := E / v with hq
  have hrchar := Nat.div_add_mod E v
  rw [← hq] at hrchar
  have hrlt : E % v < v := Nat.mod_lt _ (by omega)
  have hvq : v ≤ q := by
    rw [hq, Nat.le_div_iff_mul_le (show 0 < v by omega)]
    exact heasy
  have hq100 : 100 ≤ q := by
    rw [hq, Nat.le_div_iff_mul_le (show 0 < v by omega)]
    omega
  have hElim : E ≤ 25729 := by
    have h9 : v * 9 / 10 ≤ 2295 / 10 := Nat.div_le_div_right (by omega)
    omega
  have hq7281 : q ≤ 7281 := by
    have h1 : q ≤ E / 5 := by
      rw [hq]
      exact Nat.div_le_div_left (by omega) (by omega)
    have h2 : E / 5 ≤ 25729 / 5 := Nat.div_le_div_right hElim
    omega
  have hfval : fval b q = v := by
    rw [fval_unwrap hb (by omega) hq7281]
    have hvm : v * 9 / 10 ≤ q * 9 / 10 := Nat.div_le_div_right (by omega)
    have h1 : v * q ≤ b * 100 + q * 9 / 10 := by omega
    have h2 : b * 100 + q * 9 / 10 < (v + 1) * q := by
      have hvq1 : (v + 1) * q = v * q + q := by ring
      omega
    have hle : v ≤ (b * 100 + q * 9 / 10) / q := by
      rw [Nat.le_div_iff_mul_le (show 0 < q by omega)]
      exact h1
    have hlt : (b * 100 + q * 9 / 10) / q < v + 1 := by
      rw [Nat.div_lt_iff_lt_mul (show 0 < q by omega)]
      exact h2
    omega
  rw [hfval, constrain_eq_max hb, constrain_eq_max (by omega)]
  congr 1 <;> omega

end WhiteLight

namespace WhiteLight

/-- A cold-dominant pair `⟨max b 1, u⟩` with a certified recessive
value is moved by at most 1 per channel when rescaled to `b`. -/
theorem cold_pair_within1 (b u : Nat) (hb : b ≤ 255) (hu1 : 1 ≤ u)
    (huB : u ≤ max b 1)
    (hcert : 5 ≤ u → 100 ≤ certTemp b u ∧ fval b (certTemp b u) = u) :
    within1 (setBrightness b ⟨max b 1, u⟩) ⟨max b 1, u⟩ := by
  rcases Nat.lt_or_ge u 5 with h5 | h5
  · exact scaler_small_recessive b (by omega) u (by omega) ⟨hu1, huB⟩
  · have hub : u ≤ b := by omega
    have hmax : max b 1 = b := by omega
    rw [hmax]
    rcases le_or_lt (u * u) (b * 100 + u * 9 / 10) with heasy | hhard
    · rw [stage2_fix_easy hb h5 hub heasy]
      exact within1_refl _
    · obtain ⟨hct, heq⟩ := hcert h5
      rw [scaler_cert_fix b (by omega) u (by omega)
        ⟨h5, hub, hhard, hct, heq⟩]
      exact within1_refl _

/-- Shape of a cold-dominant first application: the output is
`⟨max b 1, u⟩` with `1 ≤ u ≤ max b 1`, and whenever `u ≥ 5` the
closed-form certificate for `u` holds. -/
theorem cold_stage1_shape (b : Nat) (x : PWMdata) (hb : b ≤ 255)
    (hw1 : 1 ≤ x.warmWhite) (hwc : x.warmWhite ≤ x.coldWhite)
    (hc2 : x.coldWhite ≤ 255) :
    ∃ u, setBrightness b x = ⟨max b 1, u⟩ ∧ 1 ≤ u ∧ u ≤ max b 1 ∧
      (5 ≤ u → 100 ≤ certTemp b u ∧ fval b (certTemp b u) = u) := by
  rw [setBrightness_cold_eq b hwc]
  have ht100 : 100 ≤ tempOf x.coldWhite x.warmWhite :=
    tempOf_ge_100 hw1 hwc hc2
  have hvb : fval b (tempOf x.coldWhite x.warmWhite) ≤ b := fval_le hb ht100
  refine ⟨constrain (fval b (tempOf x.coldWhite x.warmWhite)) 1 255,
    by rw [constrain_eq_max hb], ?_, ?_, ?_⟩
  · exact (constrain_bounds _).1
  · rw [constrain_eq_max (by omega)]
    omega
  · intro h5
    rw [constrain_eq_max (by omega)] at h5 ⊢
    have hv5 : 5 ≤ fval b (tempOf x.coldWhite x.warmWhite) := by omega
    have hmax : max (fval b (tempOf x.coldWhite x.warmWhite)) 1 =
        fval b (tempOf x.coldWhite x.warmWhite) := by omega
    rw [hmax]
    exact (cert_of_stage1 hb ht100 rfl hv5).2

/-- C5: rescaling twice with the same target brightness moves each
channel by at most 1 compared to rescaling once, for every
`targetBrightness ≤ 255` and every input with both channels in
`[1, 255]` (in fact the second application reproduces the first
exactly; the claim's tolerance of 1 is ample). -/
theorem scale_idempotent_pm1 (b : Nat) (x : PWMdata) (hb : b ≤ 255)
    (hc1 : 1 ≤ x.coldWhite) (hc2 : x.coldWhite ≤ 255)
    (hw1 : 1 ≤ x.warmWhite) (hw2 : x.warmWhite ≤ 255) :
    within1 (setBrightness b (setBrightness b x)) (setBrightness b x) := by
  by_cases hx : x.warmWhite ≤ x.coldWhite
  · obtain ⟨u, hy, hu1, huB, hcert⟩ := cold_stage1_shape b x hb hw1 hx hc2
    rw [hy]
    exact cold_pair_within1 b u hb hu1 huB hcert
  · have hlt : x.coldWhite < x.warmWhite := by omega
    rw [setBrightness_swap b hlt]
    obtain ⟨u, hy, hu1, huB, hcert⟩ :=
      cold_stage1_shape b ⟨x.warmWhite, x.coldWhite⟩ hb hc1 (by simpa using by omega) hw2
    rw [hy]
    show within1 (setBrightness b ⟨u, max b 1⟩) ⟨u, max b 1⟩
    rcases Nat.eq_or_lt_of_le huB with heq | hlt2
    · rw [heq]
      exact cold_pair_within1 b (max b 1) hb (by omega) (by omega) (heq ▸ hcert)
    · have hswap2 : (⟨u, max b 1⟩ : PWMdata).coldWhite <
          (⟨u, max b 1⟩ : PWMdata).warmWhite := hlt2
      rw [setBrightness_swap b hswap2]
      have h := cold_pair_within1 b u hb hu1 huB hcert
      have h2 := within1_swap h
      simpa using h2

end WhiteLight

namespace WhiteLight

/-- C5 witness at `b = 128`, `x = {200, 100}`. -/
theorem scale_idempotent_pm1_witness :
    within1 (setBrightness 128 (setBrightness 128 ⟨200, 100⟩))
      (setBrightness 128 ⟨200, 100⟩) :=
  scale_idempotent_pm1 128 ⟨200, 100⟩ (by decide) (by decide) (by decide)
    (by decide) (by decide)

end WhiteLight
